import Mathlib

/-!
Verification of the redlock-py distributed lock manager against its
natural-language specification.

The Python source (`redlock/__init__.py`) is shallowly embedded below.
External effects are modelled explicitly:

* the value stored by one Redis peer under the contended resource key is a
  `PeerStore := Option Token` (`none` = key absent);
* network/redis exceptions are supplied by boolean error oracles
  (per attempt, per peer), matching the bare `try/except` blocks;
* wall-clock measurement `int(time.time()*1000) - start_time` of one
  acquisition attempt is supplied by a nonnegative `elapsed` oracle;
* the stream of values produced by `random.choice` is abstracted into an
  `rng : Nat → Token` supply; `get_unique_id()` consumes `rng 0`,
  `rng 1`, ... in order.  Tokens themselves are opaque (`Token := Nat`).

Functions keep the Python names (`lock_instance`, `unlock_instance`,
`lock`, `unlock`, `extend_expiry_loop`, `stop_expiry_extender`, ...).
Runs additionally record the trace of peer calls that were issued, so that
claims about which conditional sets/deletes are sent to which peer can be
stated.
-/

namespace Redlock

/-- Opaque proof-token values (the 22-character random strings of
`get_unique_id`), abstracted to `Nat`. -/
abbrev Token := Nat

/-- The value one peer stores under the contended resource key
(`none` = key absent / expired). -/
abbrev PeerStore := Option Token

/-- Python's `Lock = namedtuple("Lock", ("validity", "resource", "key"))`. -/
structure Lock where
  validity : Int
  resource : String
  key : Token
deriving DecidableEq

/-- Trace events: the conditional SET (NX PX) and the conditional
delete (EVAL of `unlock_script`) issued during a `lock` call, tagged with
the attempt number, the peer index and the token argument. -/
inductive Ev where
  | setCall (attempt peer : Nat) (tok : Token)
  | delCall (attempt peer : Nat) (tok : Token)
deriving DecidableEq

/-- The token argument carried by a trace event. -/
def evTok : Ev → Token
  | .setCall _ _ t => t
  | .delCall _ _ t => t

/-- Model of `Redlock.lock_instance`: `server.set(resource, val, nx=True, px=ttl)`
with every exception caught and turned into `False`.  `err` is the oracle
for "the redis call raised"; on an error the peer's state is unchanged.
Returns the boolean result together with the peer's new state. -/
def lock_instance (err : Bool) (val : Token) (s : PeerStore) : Bool × PeerStore :=
  if err then (false, s)
  else
    match s with
    | none => (true, some val)
    | some w => (false, some w)

/-- The raw EVAL of `unlock_script` on one peer: delete the key iff its
current value equals `val`; `err = true` models the call raising. -/
def evalCheckDel (err : Bool) (val : Token) (s : PeerStore) : Except Unit PeerStore :=
  if err then .error () else .ok (if s = some val then none else s)

/-- Model of `Redlock.unlock_instance`: the EVAL above wrapped in
`try/except: pass` — an error leaves the peer state unchanged and is
swallowed. -/
def unlock_instance (err : Bool) (val : Token) (s : PeerStore) : PeerStore :=
  match evalCheckDel err val s with
  | .ok s2 => s2
  | .error _ => s

/-- The `for server in self.servers: lock_instance(...)` fan-out of one
acquisition attempt, peer index `i` onwards. -/
def runSets (val : Token) (err : Nat → Bool) : Nat → List PeerStore → List (Bool × PeerStore)
  | _, [] => []
  | i, s :: rest => lock_instance (err i) val s :: runSets val err (i + 1) rest

/-- The `for server in self.servers: unlock_instance(...)` fan-out of the
failure branch of an attempt, peer index `i` onwards. -/
def runDels (val : Token) (err : Nat → Bool) : Nat → List PeerStore → List PeerStore
  | _, [] => []
  | i, s :: rest => unlock_instance (err i) val s :: runDels val err (i + 1) rest

/-- Environment oracles of one `lock` call: per attempt and peer, whether
the SET / delete call raised, and the measured elapsed milliseconds of each
attempt's fan-out. -/
structure LockEnv where
  setErr : Nat → Nat → Bool
  delErr : Nat → Nat → Bool
  elapsed : Nat → Nat

/-- The margin `drift = int(ttl * self.clock_drift_factor) + 2` with
`clock_drift_factor = 0.01`: Python's `int` truncation of `ttl * 0.01`
agrees with natural-number division by 100. -/
def drift (ttl : Nat) : Nat := ttl / 100 + 2

/-- The value `validity = int(ttl - elapsed_time - drift)` as computed in attempt
`a`; `drift` is computed once, before the retry loop. -/
def validityAt (ttl : Nat) (env : LockEnv) (a : Nat) : Int :=
  (ttl : Int) - (env.elapsed a : Int) - (drift ttl : Int)

/-- Success count `n` of attempt `a` launched from peer states `s`. -/
def nAttempt (env : LockEnv) (val : Token) (a : Nat) (s : List PeerStore) : Nat :=
  (runSets val (env.setErr a) 0 s).countP (fun r => r.1)

/-- Peer states right after the SET fan-out of attempt `a`. -/
def attemptStores (env : LockEnv) (val : Token) (a : Nat) (s : List PeerStore) : List PeerStore :=
  (runSets val (env.setErr a) 0 s).map (fun r => r.2)

/-- Peer states after a failed attempt `a`: the SET fan-out followed by the
cleanup delete fan-out. -/
def failStep (env : LockEnv) (val : Token) (a : Nat) (s : List PeerStore) : List PeerStore :=
  runDels val (env.delErr a) 0 (attemptStores env val a s)

/-- The list `setTrace a val np`: the SET calls issued to peers `0..np-1` in
attempt `a`. -/
def setTrace (a : Nat) (val : Token) (np : Nat) : List Ev :=
  (List.range np).map (fun i => Ev.setCall a i val)

/-- The list `delTrace a val np`: the cleanup delete calls issued to peers
`0..np-1` after a failed attempt `a`. -/
def delTrace (a : Nat) (val : Token) (np : Nat) : List Ev :=
  (List.range np).map (fun i => Ev.delCall a i val)

/-- The `while retry < self.retry_count` loop of `Redlock.lock`, with
`fuel` remaining attempts and `a` the current attempt index.  Returns the
result (`some` Lock / `none` for Python's `False`), the final peer states
and the trace of issued peer calls. -/
def lockAux (env : LockEnv) (resource : String) (ttl quorum : Nat) (val : Token)
    (a : Nat) : Nat → List PeerStore → Option Lock × List PeerStore × List Ev
  | 0, s => (none, s, [])
  | fuel + 1, s =>
    if 0 < validityAt ttl env a ∧ quorum ≤ nAttempt env val a s then
      (some ⟨validityAt ttl env a, resource, val⟩, attemptStores env val a s,
        setTrace a val s.length)
    else
      let out := lockAux env resource ttl quorum val (a + 1) fuel (failStep env val a s)
      (out.1, out.2.1, setTrace a val s.length ++ (delTrace a val s.length ++ out.2.2))

/-- Model of `Redlock.lock(resource, ttl)`: `val = self.get_unique_id()` consumes
`rng 0` once, before the retry loop; then the loop runs with
`retryCount` attempts over the initial peer states `s0`. -/
def lock (env : LockEnv) (rng : Nat → Token) (quorum retryCount : Nat)
    (resource : String) (ttl : Nat) (s0 : List PeerStore) :
    Option Lock × List PeerStore × List Ev :=
  lockAux env resource ttl quorum (rng 0) 0 retryCount s0

/-- Peer states reached after `k` consecutive failed attempts starting at
attempt index `a` from states `s`. -/
def storesFrom (env : LockEnv) (val : Token) : Nat → List PeerStore → Nat → List PeerStore
  | _, s, 0 => s
  | a, s, k + 1 => storesFrom env val (a + 1) (failStep env val a s) k

/-- The success condition of attempt `a + k`, reached after `k` failed
attempts from states `s`: computed validity positive and at least `quorum`
peers accepted the SET. -/
def succFrom (env : LockEnv) (ttl quorum : Nat) (val : Token)
    (a : Nat) (s : List PeerStore) (k : Nat) : Prop :=
  0 < validityAt ttl env (a + k) ∧
    quorum ≤ nAttempt env val (a + k) (storesFrom env val a s k)

instance (env : LockEnv) (ttl quorum : Nat) (val : Token)
    (a : Nat) (s : List PeerStore) (k : Nat) :
    Decidable (succFrom env ttl quorum val a s k) := by
  unfold succFrom; infer_instance

/-! ### Construction (`Redlock.__init__`) -/

/-- The two ways `__init__` can raise: `raise Warning(str(e))` when a peer
fails to construct, and the distinguished `CannotObtainLock`. -/
inductive InitError where
  | warning
  | cannotObtainLock
deriving DecidableEq

/-- The configuration a successfully constructed manager holds. -/
structure RedlockCfg where
  numServers : Nat
  quorum : Nat
  retry_count : Nat
  retry_delay : ℚ
deriving DecidableEq

/-- The `for connection_info in connection_list` construction loop: each
descriptor is marked constructible or not; the first failure raises
`Warning` immediately, otherwise the number of constructed servers is
returned. -/
def buildServers : List Bool → Except InitError Nat
  | [] => .ok 0
  | c :: rest => if c then (buildServers rest).map (fun n => n + 1) else .error .warning

/-- Model of `Redlock.__init__(connection_list, retry_count, retry_delay)`.
`conns` lists, per descriptor, whether its peer is constructible.
`retry_count or 3` / `retry_delay or 0.2` follow Python truthiness:
`None` and `0` both fall back to the default. -/
def redlockInit (conns : List Bool) (rc : Option Nat) (rd : Option ℚ) :
    Except InitError RedlockCfg :=
  match buildServers conns with
  | .error e => .error e
  | .ok ns =>
    if ns < conns.length / 2 + 1 then .error .cannotObtainLock
    else
      .ok { numServers := ns
            quorum := conns.length / 2 + 1
            retry_count := (match rc with | none => 3 | some 0 => 3 | some (k + 1) => k + 1)
            retry_delay := (match rd with | none => 1/5 | some d => if d = 0 then 1/5 else d) }

/-! ### Release (`Redlock.unlock`) -/

/-- The `for server in self.servers` loop of `unlock`, in the `Except`
monad so that "never raises" is a provable statement: each iteration runs
`unlock_instance`, i.e. the raw `evalCheckDel` guarded by
`try/except: pass` (`Except.tryCatch` with a handler keeping the state).
Returns the final peer states and the issued delete calls. -/
def unlockRun (err : Nat → Bool) (val : Token) :
    Nat → List PeerStore → Except Unit (List PeerStore × List Ev)
  | _, [] => .ok ([], [])
  | i, s :: rest => do
    let s2 ← Except.tryCatch (evalCheckDel (err i) val s) (fun _ => .ok s)
    let out ← unlockRun err val (i + 1) rest
    return (s2 :: out.1, Ev.delCall 0 i val :: out.2)

/-- Model of `Redlock.unlock(lock)`: best-effort conditional delete of
`lock.key` on every peer. -/
def unlock (err : Nat → Bool) (lk : Lock) (stores : List PeerStore) :
    Except Unit (List PeerStore × List Ev) :=
  unlockRun err lk.key 0 stores

/-! ### Lease extender (`ExpiryExtendingRedlock`) -/

/-- Events of one renewal loop: the timed `event.wait` and the renewal
SET (XX PX) of iteration `k`. -/
inductive ExtEv where
  | wait (t : ℚ)
  | renew (iter : Nat)
deriving DecidableEq

/-- Outcome of `server.set(resource, val, xx=True, px=ttl)` at one
iteration: `none` = the call raised, `some b` = it returned `b`.  The XX
set succeeds exactly when the key currently exists, whatever value it
holds — no token match is performed. -/
def renewOutcome (err : Bool) (store : PeerStore) : Option Bool :=
  if err then none else some store.isSome

/-- The new value of the shared stop event after one loop body (entered
with the event clear): `set()` is called unless the renewal SET returned
`True`. -/
def extendStepEvent (r : Option Bool) : Bool :=
  match r with
  | some true => false
  | _ => true

/-- Model of `ExpiryExtendingRedlock.extend_expiry_loop`, run for at most `fuel`
iterations (the real loop is unbounded while renewals succeed).  `k` is
the iteration counter, `ev` the shared event's current value; `err` and
`store` give, per iteration, whether the renewal SET raises and the
peer's key state when it executes.  Returns the final event value and the
trace of waits and renewal calls. -/
def extendExpiryLoop (ttl : Nat) (err : Nat → Bool) (store : Nat → PeerStore) :
    Nat → Nat → Bool → Bool × List ExtEv
  | 0, _, ev => (ev, [])
  | fuel + 1, k, ev =>
    if ev then (ev, [])
    else
      let out := extendExpiryLoop ttl err store fuel (k + 1)
        (extendStepEvent (renewOutcome (err k) (store k)))
      (out.1, ExtEv.wait ((ttl : ℚ) / 1000 - 5) :: ExtEv.renew k :: out.2)

/-- The canonical trace of `m` completed loop iterations starting at
iteration `k`: each is an `event.wait d` followed by one renewal SET. -/
def canonTrace (d : ℚ) : Nat → Nat → List ExtEv
  | _, 0 => []
  | k, m + 1 => ExtEv.wait d :: ExtEv.renew k :: canonTrace d (k + 1) m

/-- The mutable extender bookkeeping of an `ExpiryExtendingRedlock`
instance: the shared `threading.Event`, the single
`self.expiry_extender` slot (the most recently started thread), and — for
the model — the list of all extender threads started so far. -/
structure ExtMgr where
  event : Bool
  expiry_extender : Option Nat
  started : List Nat
deriving DecidableEq

/-- State after `ExpiryExtendingRedlock.__init__`. -/
def initExtMgr : ExtMgr := ⟨false, none, []⟩

/-- Model of `start_expiry_extender`: creates and starts a new renewal thread
(modelled by its id `t`) and OVERWRITES `self.expiry_extender` with it. -/
def start_expiry_extender (t : Nat) (m : ExtMgr) : ExtMgr :=
  { m with expiry_extender := some t, started := t :: m.started }

/-- The observable actions of `stop_expiry_extender`, in order. -/
inductive StopAct where
  | setFlag
  | joinThread (t : Nat)
  | clearFlag
deriving DecidableEq

/-- Model of `stop_expiry_extender`: the body is `event.set()`, then
`join()` on `self.expiry_extender` if it is not `None` and `is_alive()`,
then `event.clear()`, all inside `try/except: pass`.  `alive` is the
`is_alive` oracle; the returned action list records which threads the call
actually waited for and the order of the flag operations. -/
def stop_expiry_extender (alive : Nat → Bool) (m : ExtMgr) : ExtMgr × List StopAct :=
  let joins : List StopAct :=
    match m.expiry_extender with
    | some t => if alive t then [StopAct.joinThread t] else []
    | none => []
  ({ m with event := false }, StopAct.setFlag :: (joins ++ [StopAct.clearFlag]))

/-! ### Concrete environments used by witnesses and counterexamples -/

/-- An environment in which no peer call errors and every attempt's
fan-out takes 0 measured milliseconds. -/
def env0 : LockEnv := ⟨fun _ _ => false, fun _ _ => false, fun _ => 0⟩

/-- An environment in which every SET raises (all peers down for writes)
while deletes succeed. -/
def env1 : LockEnv := ⟨fun _ _ => true, fun _ _ => false, fun _ => 0⟩

/-- An injective token supply: fresh, pairwise distinct tokens are
available at every index. -/
def idRng : Nat → Token := fun n => n

end Redlock

namespace Redlock

/-! ### Basic lemmas about the fan-out helpers -/

theorem runSets_length (val : Token) (err : Nat → Bool) :
    ∀ (i : Nat) (s : List PeerStore), (runSets val err i s).length = s.length := by
  intro i s
  induction s generalizing i with
  | nil => rfl
  | cons h t ih => simp [runSets, ih]

theorem runDels_length (val : Token) (err : Nat → Bool) :
    ∀ (i : Nat) (s : List PeerStore), (runDels val err i s).length = s.length := by
  intro i s
  induction s generalizing i with
  | nil => rfl
  | cons h t ih => simp [runDels, ih]

theorem attemptStores_length (env : LockEnv) (val : Token) (a : Nat) (s : List PeerStore) :
    (attemptStores env val a s).length = s.length := by
  simp [attemptStores, runSets_length]

theorem failStep_length (env : LockEnv) (val : Token) (a : Nat) (s : List PeerStore) :
    (failStep env val a s).length = s.length := by
  simp [failStep, runDels_length, attemptStores_length]

theorem mem_setTrace {b i : Nat} {t : Token} {a np : Nat} {val : Token} :
    Ev.setCall b i t ∈ setTrace a val np ↔ b = a ∧ i < np ∧ t = val := by
  simp only [setTrace, List.mem_map, List.mem_range]
  constructor
  · rintro ⟨x, hx, he⟩
    cases he
    exact ⟨rfl, hx, rfl⟩
  · rintro ⟨rfl, hi, rfl⟩
    exact ⟨i, hi, rfl⟩

theorem mem_delTrace {b i : Nat} {t : Token} {a np : Nat} {val : Token} :
    Ev.delCall b i t ∈ delTrace a val np ↔ b = a ∧ i < np ∧ t = val := by
  simp only [delTrace, List.mem_map, List.mem_range]
  constructor
  · rintro ⟨x, hx, he⟩
    cases he
    exact ⟨rfl, hx, rfl⟩
  · rintro ⟨rfl, hi, rfl⟩
    exact ⟨i, hi, rfl⟩

theorem delCall_not_mem_setTrace {b i : Nat} {t : Token} {a np : Nat} {val : Token} :
    Ev.delCall b i t ∉ setTrace a val np := by
  simp [setTrace, List.mem_map]

theorem setCall_not_mem_delTrace {b i : Nat} {t : Token} {a np : Nat} {val : Token} :
    Ev.setCall b i t ∉ delTrace a val np := by
  simp [delTrace, List.mem_map]

theorem evTok_of_mem_setTrace {e : Ev} {a np : Nat} {val : Token}
    (h : e ∈ setTrace a val np) : evTok e = val := by
  simp only [setTrace, List.mem_map, List.mem_range] at h
  obtain ⟨x, _, rfl⟩ := h
  rfl

theorem evTok_of_mem_delTrace {e : Ev} {a np : Nat} {val : Token}
    (h : e ∈ delTrace a val np) : evTok e = val := by
  simp only [delTrace, List.mem_map, List.mem_range] at h
  obtain ⟨x, _, rfl⟩ := h
  rfl

theorem runDels_ne_some (val : Token) (err : Nat → Bool) (herr : ∀ j, err j = false) :
    ∀ (i : Nat) (s : List PeerStore), ∀ st ∈ runDels val err i s, st ≠ some val := by
  intro i s
  induction s generalizing i with
  | nil => intro st h; simp [runDels] at h
  | cons h t ih =>
    intro st hst
    simp only [runDels, List.mem_cons] at hst
    rcases hst with rfl | hst
    · simp only [unlock_instance, evalCheckDel, herr i, if_false, Bool.false_eq_true]
      by_cases hh : h = some val
      · simp [hh]
      · simp [hh]
    · exact ih (i + 1) st hst

theorem failStep_ne_some (env : LockEnv) (val : Token) (a : Nat)
    (hdel : ∀ j, env.delErr a j = false) (s : List PeerStore) :
    ∀ st ∈ failStep env val a s, st ≠ some val :=
  runDels_ne_some val (env.delErr a) hdel 0 (attemptStores env val a s)

/-! ### Shifting lemmas for the success condition -/

theorem succFrom_zero_iff (env : LockEnv) (ttl quorum : Nat) (val : Token)
    (a : Nat) (s : List PeerStore) :
    succFrom env ttl quorum val a s 0 ↔
      0 < validityAt ttl env a ∧ quorum ≤ nAttempt env val a s := Iff.rfl

theorem succFrom_succ_iff (env : LockEnv) (ttl quorum : Nat) (val : Token)
    (a : Nat) (s : List PeerStore) (k : Nat) :
    succFrom env ttl quorum val a s (k + 1) ↔
      succFrom env ttl quorum val (a + 1) (failStep env val a s) k := by
  unfold succFrom
  rw [show a + (k + 1) = (a + 1) + k by omega]
  rw [show storesFrom env val a s (k + 1) = storesFrom env val (a + 1) (failStep env val a s) k
    from rfl]

end Redlock

namespace Redlock

/-! ### The acquisition loop: success characterization -/

theorem lockAux_isSome_iff (env : LockEnv) (resource : String) (ttl quorum : Nat)
    (val : Token) :
    ∀ (fuel a : Nat) (s : List PeerStore),
      ((lockAux env resource ttl quorum val a fuel s).1).isSome = true ↔
        ∃ k, k < fuel ∧ succFrom env ttl quorum val a s k := by
  intro fuel
  induction fuel with
  | zero =>
    intro a s
    simp [lockAux]
  | succ fuel ih =>
    intro a s
    by_cases hc : 0 < validityAt ttl env a ∧ quorum ≤ nAttempt env val a s
    · simp only [lockAux, if_pos hc, Option.isSome_some, true_iff]
      exact ⟨0, Nat.succ_pos fuel, hc⟩
    · simp only [lockAux, if_neg hc]
      rw [ih (a + 1) (failStep env val a s)]
      constructor
      · rintro ⟨k, hk, hs⟩
        exact ⟨k + 1, by omega, (succFrom_succ_iff env ttl quorum val a s k).mpr hs⟩
      · rintro ⟨k, hk, hs⟩
        match k, hs with
        | 0, hs => exact absurd hs hc
        | k + 1, hs =>
          exact ⟨k, by omega, (succFrom_succ_iff env ttl quorum val a s k).mp hs⟩

end Redlock

namespace Redlock

/-! ### The acquisition loop: successful runs -/

theorem lockAux_eq_some (env : LockEnv) (resource : String) (ttl quorum : Nat)
    (val : Token) :
    ∀ (fuel a : Nat) (s : List PeerStore) (l : Lock),
      (lockAux env resource ttl quorum val a fuel s).1 = some l →
      ∃ k, k < fuel ∧ succFrom env ttl quorum val a s k ∧
        l = ⟨validityAt ttl env (a + k), resource, val⟩ ∧
        (∀ b i t, Ev.delCall b i t ∈ (lockAux env resource ttl quorum val a fuel s).2.2 →
          a ≤ b ∧ b < a + k) ∧
        (∀ b, a ≤ b → b < a + k → ∀ i, i < s.length →
          Ev.delCall b i val ∈ (lockAux env resource ttl quorum val a fuel s).2.2) := by
  intro fuel
  induction fuel with
  | zero =>
    intro a s l h
    simp [lockAux] at h
  | succ fuel ih =>
    intro a s l h
    by_cases hc : 0 < validityAt ttl env a ∧ quorum ≤ nAttempt env val a s
    · simp only [lockAux, if_pos hc, Option.some.injEq] at h
      refine ⟨0, Nat.succ_pos fuel, hc, h.symm, ?_, ?_⟩
      · intro b i t hmem
        simp only [lockAux, if_pos hc] at hmem
        exact absurd hmem delCall_not_mem_setTrace
      · intro b hab hb
        omega
    · simp only [lockAux, if_neg hc] at h ⊢
      obtain ⟨k, hk, hs, hl, htr1, htr2⟩ := ih (a + 1) (failStep env val a s) l h
      refine ⟨k + 1, by omega, (succFrom_succ_iff env ttl quorum val a s k).mpr hs, ?_, ?_, ?_⟩
      · rw [hl, show (a + 1) + k = a + (k + 1) by omega]
      · intro b i t hmem
        simp only [List.mem_append] at hmem
        rcases hmem with hmem | hmem | hmem
        · exact absurd hmem delCall_not_mem_setTrace
        · obtain ⟨rfl, _, rfl⟩ := mem_delTrace.mp hmem
          omega
        · have := htr1 b i t hmem
          omega
      · intro b hab hb i hi
        simp only [List.mem_append]
        by_cases hba : b = a
        · subst hba
          exact Or.inr (Or.inl (mem_delTrace.mpr ⟨rfl, hi, rfl⟩))
        · refine Or.inr (Or.inr (htr2 b (by omega) (by omega) i ?_))
          rw [failStep_length]
          exact hi

end Redlock

namespace Redlock

/-! ### The acquisition loop: failing runs and trace soundness -/

theorem lockAux_eq_none_dels (env : LockEnv) (resource : String) (ttl quorum : Nat)
    (val : Token) :
    ∀ (fuel a : Nat) (s : List PeerStore),
      (lockAux env resource ttl quorum val a fuel s).1 = none →
      ∀ k, k < fuel → ∀ i, i < s.length →
        Ev.delCall (a + k) i val ∈ (lockAux env resource ttl quorum val a fuel s).2.2 := by
  intro fuel
  induction fuel with
  | zero =>
    intro a s _ k hk
    omega
  | succ fuel ih =>
    intro a s h k hk i hi
    by_cases hc : 0 < validityAt ttl env a ∧ quorum ≤ nAttempt env val a s
    · simp [lockAux, if_pos hc] at h
    · simp only [lockAux, if_neg hc] at h ⊢
      simp only [List.mem_append]
      match k with
      | 0 => exact Or.inr (Or.inl (mem_delTrace.mpr ⟨rfl, hi, rfl⟩))
      | k + 1 =>
        refine Or.inr (Or.inr ?_)
        have hmem := ih (a + 1) (failStep env val a s) h k (by omega) i
          (by rw [failStep_length]; exact hi)
        rw [show (a + 1) + k = a + (k + 1) by omega] at hmem
        exact hmem

theorem lockAux_eq_none_sets (env : LockEnv) (resource : String) (ttl quorum : Nat)
    (val : Token) :
    ∀ (fuel a : Nat) (s : List PeerStore),
      (lockAux env resource ttl quorum val a fuel s).1 = none →
      ∀ k, k < fuel → ∀ i, i < s.length →
        Ev.setCall (a + k) i val ∈ (lockAux env resource ttl quorum val a fuel s).2.2 := by
  intro fuel
  induction fuel with
  | zero =>
    intro a s _ k hk
    omega
  | succ fuel ih =>
    intro a s h k hk i hi
    by_cases hc : 0 < validityAt ttl env a ∧ quorum ≤ nAttempt env val a s
    · simp [lockAux, if_pos hc] at h
    · simp only [lockAux, if_neg hc] at h ⊢
      simp only [List.mem_append]
      match k with
      | 0 => exact Or.inl (mem_setTrace.mpr ⟨rfl, hi, rfl⟩)
      | k + 1 =>
        refine Or.inr (Or.inr ?_)
        have hmem := ih (a + 1) (failStep env val a s) h k (by omega) i
          (by rw [failStep_length]; exact hi)
        rw [show (a + 1) + k = a + (k + 1) by omega] at hmem
        exact hmem

theorem lockAux_setCall_sound (env : LockEnv) (resource : String) (ttl quorum : Nat)
    (val : Token) :
    ∀ (fuel a : Nat) (s : List PeerStore) (b i : Nat) (t : Token),
      Ev.setCall b i t ∈ (lockAux env resource ttl quorum val a fuel s).2.2 →
      a ≤ b ∧ b < a + fuel ∧ i < s.length ∧ t = val := by
  intro fuel
  induction fuel with
  | zero =>
    intro a s b i t hmem
    simp [lockAux] at hmem
  | succ fuel ih =>
    intro a s b i t hmem
    by_cases hc : 0 < validityAt ttl env a ∧ quorum ≤ nAttempt env val a s
    · simp only [lockAux, if_pos hc] at hmem
      obtain ⟨rfl, hi, rfl⟩ := mem_setTrace.mp hmem
      exact ⟨Nat.le_refl _, by omega, hi, rfl⟩
    · simp only [lockAux, if_neg hc, List.mem_append] at hmem
      rcases hmem with hmem | hmem | hmem
      · obtain ⟨rfl, hi, rfl⟩ := mem_setTrace.mp hmem
        exact ⟨Nat.le_refl _, by omega, hi, rfl⟩
      · exact absurd hmem setCall_not_mem_delTrace
      · obtain ⟨h1, h2, h3, h4⟩ := ih (a + 1) (failStep env val a s) b i t hmem
        rw [failStep_length] at h3
        exact ⟨by omega, by omega, h3, h4⟩

theorem lockAux_trace_tok (env : LockEnv) (resource : String) (ttl quorum : Nat)
    (val : Token) :
    ∀ (fuel a : Nat) (s : List PeerStore),
      ∀ e ∈ (lockAux env resource ttl quorum val a fuel s).2.2, evTok e = val := by
  intro fuel
  induction fuel with
  | zero =>
    intro a s e hmem
    simp [lockAux] at hmem
  | succ fuel ih =>
    intro a s e hmem
    by_cases hc : 0 < validityAt ttl env a ∧ quorum ≤ nAttempt env val a s
    · simp only [lockAux, if_pos hc] at hmem
      exact evTok_of_mem_setTrace hmem
    · simp only [lockAux, if_neg hc, List.mem_append] at hmem
      rcases hmem with hmem | hmem | hmem
      · exact evTok_of_mem_setTrace hmem
      · exact evTok_of_mem_delTrace hmem
      · exact ih (a + 1) (failStep env val a s) e hmem

theorem lockAux_none_keys (env : LockEnv) (resource : String) (ttl quorum : Nat)
    (val : Token) (hdel : ∀ b j, env.delErr b j = false) :
    ∀ (fuel a : Nat) (s : List PeerStore),
      (∀ st ∈ s, st ≠ some val) →
      (lockAux env resource ttl quorum val a fuel s).1 = none →
      ∀ st ∈ (lockAux env resource ttl quorum val a fuel s).2.1, st ≠ some val := by
  intro fuel
  induction fuel with
  | zero =>
    intro a s hs _ st hmem
    exact hs st hmem
  | succ fuel ih =>
    intro a s hs h
    by_cases hc : 0 < validityAt ttl env a ∧ quorum ≤ nAttempt env val a s
    · simp [lockAux, if_pos hc] at h
    · simp only [lockAux, if_neg hc] at h ⊢
      exact ih (a + 1) (failStep env val a s)
        (failStep_ne_some env val a (hdel a) s) h

end Redlock

namespace Redlock

/-! ### Claim theorems: acquisition (C1, C3, C4, C5) -/

/-- C1: `Redlock.lock(resource, ttl)` returns a `Lock` handle iff on some
attempt `k < retryCount` the number of peers whose conditional SET
succeeded reaches the quorum AND the computed validity
`ttl - elapsed - drift` is strictly positive; on such a success the
handle is returned immediately — every cleanup delete in the trace
belongs to an earlier, failed attempt — and the returned validity `v`
satisfies `0 < v` and `v ≤ ttl - drift`. -/
theorem C1_lock_success_characterization (env : LockEnv) (rng : Nat → Token)
    (quorum retryCount : Nat) (resource : String) (ttl : Nat) (s0 : List PeerStore) :
    ((∃ l, (lock env rng quorum retryCount resource ttl s0).1 = some l) ↔
      ∃ k, k < retryCount ∧ succFrom env ttl quorum (rng 0) 0 s0 k) ∧
    (∀ l, (lock env rng quorum retryCount resource ttl s0).1 = some l →
      0 < l.validity ∧ l.validity ≤ (ttl : Int) - (drift ttl : Int) ∧
      ∃ k, k < retryCount ∧ succFrom env ttl quorum (rng 0) 0 s0 k ∧
        l.validity = validityAt ttl env k ∧
        ∀ b i t, Ev.delCall b i t ∈ (lock env rng quorum retryCount resource ttl s0).2.2 →
          b < k) := by
  constructor
  · rw [← Option.isSome_iff_exists]
    exact lockAux_isSome_iff env resource ttl quorum (rng 0) retryCount 0 s0
  · intro l h
    obtain ⟨k, hk, hs, hl, htr1, _⟩ :=
      lockAux_eq_some env resource ttl quorum (rng 0) retryCount 0 s0 l h
    rw [Nat.zero_add] at hl
    have hval : l.validity = validityAt ttl env k := by rw [hl]
    have hpos : 0 < l.validity := by
      rw [hval]
      have := hs.1
      rwa [Nat.zero_add] at this
    refine ⟨hpos, ?_, k, hk, hs, hval, ?_⟩
    · rw [hval]
      unfold validityAt
      omega
    · intro b i t hmem
      have := (htr1 b i t hmem).2
      omega

/-- Witness for C1: a run in which every peer accepts the SET at attempt 0
and the lock call reports success. -/
theorem C1_witness :
    ∃ l, (lock env0 idRng 1 1 "r" 1000 [none]).1 = some l :=
  (C1_lock_success_characterization env0 idRng 1 1 "r" 1000 [none]).1.mpr
    ⟨0, Nat.one_pos, by decide⟩

/-- C3 counterexample: with an injective token supply and every SET
raising (so both attempts of a 2-retry call fail), attempt 0 and attempt 1
issue their SET with the SAME token `idRng 0`, and the fresh token
`idRng 1` is never used — the retry does not use a freshly generated
token. -/
theorem C3_counterexample :
    Ev.setCall 0 0 (idRng 0) ∈ (lock env1 idRng 1 2 "r" 1000 [none]).2.2 ∧
    Ev.setCall 1 0 (idRng 0) ∈ (lock env1 idRng 1 2 "r" 1000 [none]).2.2 ∧
    Ev.setCall 1 0 (idRng 1) ∉ (lock env1 idRng 1 2 "r" 1000 [none]).2.2 ∧
    idRng 0 ≠ idRng 1 := by
  decide

/-- C3 corrected: `lock` generates a single proof token before the retry
loop (`val = get_unique_id()` consumes `rng 0` once) and every peer call
of every attempt — including each retry after a failed attempt — carries
that same token; no new token is generated across attempts. -/
theorem C3_amended_single_token (env : LockEnv) (rng : Nat → Token)
    (quorum retryCount : Nat) (resource : String) (ttl : Nat) (s0 : List PeerStore) :
    ∀ e ∈ (lock env rng quorum retryCount resource ttl s0).2.2, evTok e = rng 0 :=
  lockAux_trace_tok env resource ttl quorum (rng 0) retryCount 0 s0

/-- Witness for the amended C3: the retry attempt's SET call carries the
call's single token. -/
theorem C3_amended_witness : evTok (Ev.setCall 1 0 0) = idRng 0 :=
  C3_amended_single_token env1 idRng 1 2 "r" 1000 [none] (Ev.setCall 1 0 0) (by decide)

/-- C4: assuming the cleanup deletes execute without peer errors (they
are best-effort: an erroring peer is left to its TTL expiry) and no peer
initially holds this call's token: (i) every attempt that runs and fails
the success condition issues the conditional delete, with the call's
token, to EVERY peer — regardless of which peers' SETs succeeded in that
attempt — before the next attempt; and (ii) when all retries are
exhausted and `lock` returns the failure value, no peer retains a key
holding this call's token. -/
theorem C4_cleanup (env : LockEnv) (rng : Nat → Token) (quorum retryCount : Nat)
    (resource : String) (ttl : Nat) (s0 : List PeerStore)
    (hdel : ∀ b j, env.delErr b j = false)
    (h0 : ∀ st ∈ s0, st ≠ some (rng 0)) :
    (∀ k, k < retryCount → (∀ j, j ≤ k → ¬ succFrom env ttl quorum (rng 0) 0 s0 j) →
      ∀ i, i < s0.length →
        Ev.delCall k i (rng 0) ∈ (lock env rng quorum retryCount resource ttl s0).2.2) ∧
    ((lock env rng quorum retryCount resource ttl s0).1 = none →
      ∀ st ∈ (lock env rng quorum retryCount resource ttl s0).2.1, st ≠ some (rng 0)) := by
  constructor
  · intro k hk hfail i hi
    cases hres : (lock env rng quorum retryCount resource ttl s0).1 with
    | none =>
      have hmem := lockAux_eq_none_dels env resource ttl quorum (rng 0) retryCount 0 s0
        hres k hk i hi
      rwa [Nat.zero_add] at hmem
    | some l =>
      obtain ⟨k2, hk2, hs2, _, _, htr2⟩ :=
        lockAux_eq_some env resource ttl quorum (rng 0) retryCount 0 s0 l hres
      have hkk : k < k2 := by
        by_contra hno
        exact hfail k2 (by omega) hs2
      exact htr2 k (by omega) (by omega) i hi
  · intro hres
    exact lockAux_none_keys env resource ttl quorum (rng 0) hdel retryCount 0 s0 h0 hres

/-- Witness for C4: a 1-retry run in which the single attempt fails (all
SETs raise): the cleanup delete is issued to the peer and the final store
holds no key with this call's token. -/
theorem C4_witness :
    Ev.delCall 0 0 (idRng 0) ∈ (lock env1 idRng 1 1 "r" 1000 [none]).2.2 ∧
    ∀ st ∈ (lock env1 idRng 1 1 "r" 1000 [none]).2.1, st ≠ some (idRng 0) := by
  have h := C4_cleanup env1 idRng 1 1 "r" 1000 [none] (fun b j => rfl) (by decide)
  refine ⟨h.1 0 Nat.one_pos (fun j hj => ?_) 0 (by decide), h.2 (by decide)⟩
  have hj0 : j = 0 := by omega
  subst hj0
  decide

/-- C5: if every one of the `retryCount` attempts fails the success
condition, `lock` performs exactly `retryCount` attempts — the trace
contains the SET call of attempt `b` to peer `i` exactly when
`b < retryCount` and `i` is a peer index, always with the call's token —
and then returns the failure value (`none`, modelling Python's `False`).
Being a total function into `Option Lock`, `lock` has exactly these two
outcomes: a handle or this failure value — it raises no exception. -/
theorem C5_exhaust_retries (env : LockEnv) (rng : Nat → Token) (quorum retryCount : Nat)
    (resource : String) (ttl : Nat) (s0 : List PeerStore)
    (hall : ∀ k, k < retryCount → ¬ succFrom env ttl quorum (rng 0) 0 s0 k) :
    (lock env rng quorum retryCount resource ttl s0).1 = none ∧
    (∀ b i t, Ev.setCall b i t ∈ (lock env rng quorum retryCount resource ttl s0).2.2 ↔
      (b < retryCount ∧ i < s0.length ∧ t = rng 0)) := by
  have hnone : (lock env rng quorum retryCount resource ttl s0).1 = none := by
    cases hres : (lock env rng quorum retryCount resource ttl s0).1 with
    | none => rfl
    | some l =>
      have hsome : ((lockAux env resource ttl quorum (rng 0) 0 retryCount s0).1).isSome
          = true := by
        rw [show (lockAux env resource ttl quorum (rng 0) 0 retryCount s0).1
          = (lock env rng quorum retryCount resource ttl s0).1 from rfl, hres]
        rfl
      obtain ⟨k, hk, hs⟩ :=
        (lockAux_isSome_iff env resource ttl quorum (rng 0) retryCount 0 s0).mp hsome
      exact absurd hs (hall k hk)
  refine ⟨hnone, fun b i t => ⟨fun hmem => ?_, fun hb => ?_⟩⟩
  · obtain ⟨_, h2, h3, h4⟩ :=
      lockAux_setCall_sound env resource ttl quorum (rng 0) retryCount 0 s0 b i t hmem
    exact ⟨by omega, h3, h4⟩
  · obtain ⟨hbl, hi, ht⟩ := hb
    subst ht
    have hmem := lockAux_eq_none_sets env resource ttl quorum (rng 0) retryCount 0 s0
      hnone b hbl i hi
    rwa [Nat.zero_add] at hmem

/-- Witness for C5: a 1-retry run with all SETs raising returns the
failure value after issuing its one attempt's SET. -/
theorem C5_witness :
    (lock env1 idRng 1 1 "r" 1000 [none]).1 = none ∧
    Ev.setCall 0 0 (idRng 0) ∈ (lock env1 idRng 1 1 "r" 1000 [none]).2.2 := by
  have h := C5_exhaust_retries env1 idRng 1 1 "r" 1000 [none] (fun k hk => by
    have hk0 : k = 0 := by omega
    subst hk0
    decide)
  exact ⟨h.1, (h.2 0 0 (idRng 0)).mpr (by decide)⟩

end Redlock

namespace Redlock

/-! ### Claim theorems: construction (C2, C6) and drift (C7) -/

theorem buildServers_of_not_mem_false :
    ∀ (conns : List Bool), false ∉ conns → buildServers conns = Except.ok conns.length := by
  intro conns
  induction conns with
  | nil => intro _; rfl
  | cons c rest ih =>
    intro h
    simp only [List.mem_cons, not_or] at h
    have hc : c = true := by
      cases c
      · exact absurd rfl h.1
      · rfl
    subst hc
    simp only [buildServers, if_pos rfl, ih h.2, List.length_cons]
    rfl

theorem buildServers_of_mem_false :
    ∀ (conns : List Bool), false ∈ conns → buildServers conns = Except.error InitError.warning := by
  intro conns
  induction conns with
  | nil => intro h; simp at h
  | cons c rest ih =>
    intro h
    cases c
    · rfl
    · simp only [List.mem_cons, Bool.false_eq_true, false_or] at h
      simp only [buildServers, if_pos rfl, ih h]
      rfl

/-- C2: whenever construction of the lock manager succeeds on `N`
connection descriptors, the stored quorum equals `floor(N/2) + 1`
(`self.quorum = (len(connection_list) // 2) + 1`). -/
theorem C2_quorum (conns : List Bool) (rc : Option Nat) (rd : Option ℚ)
    (cfg : RedlockCfg) (h : redlockInit conns rc rd = Except.ok cfg) :
    cfg.quorum = conns.length / 2 + 1 := by
  unfold redlockInit at h
  cases hb : buildServers conns with
  | error e =>
    rw [hb] at h
    exact absurd h (by simp)
  | ok ns =>
    rw [hb] at h
    dsimp only at h
    by_cases hlt : ns < conns.length / 2 + 1
    · rw [if_pos hlt] at h
      exact absurd h (by simp)
    · rw [if_neg hlt] at h
      simp only [Except.ok.injEq] at h
      rw [← h]

/-- Witness for C2: three constructible peers give quorum 2. -/
theorem C2_witness :
    ({ numServers := 3, quorum := 2, retry_count := 3, retry_delay := 1/5 } : RedlockCfg).quorum
      = [true, true, true].length / 2 + 1 :=
  C2_quorum [true, true, true] none none
    { numServers := 3, quorum := 2, retry_count := 3, retry_delay := 1/5 } (by rfl)

/-- C6 counterexample: with descriptors `[ok, bad, ok]` a quorum
(2 of 3) of peers is constructible, yet construction neither succeeds nor
raises the distinguished `CannotObtainLock`: it raises the generic
`Warning` at the unconstructible descriptor. -/
theorem C6_counterexample :
    [true, false, true].length / 2 + 1 ≤ [true, false, true].countP (fun b => b) ∧
    redlockInit [true, false, true] none none = Except.error InitError.warning :=
  ⟨by decide, by rfl⟩

/-- C6 corrected: construction raises the generic `Warning` error as soon
as ANY peer descriptor fails to construct, regardless of how many others
are constructible; when every descriptor is constructible it raises the
distinguished `CannotObtainLock` exactly when the number of constructed
peers is below quorum — which, since failures abort construction, happens
only for an empty descriptor list — and succeeds otherwise. -/
theorem C6_amended_init (conns : List Bool) (rc : Option Nat) (rd : Option ℚ) :
    (false ∈ conns → redlockInit conns rc rd = Except.error InitError.warning) ∧
    (false ∉ conns →
      (conns = [] → redlockInit conns rc rd = Except.error InitError.cannotObtainLock) ∧
      (conns ≠ [] → ∃ cfg, redlockInit conns rc rd = Except.ok cfg ∧
        cfg.numServers = conns.length ∧ cfg.quorum = conns.length / 2 + 1)) := by
  constructor
  · intro hf
    unfold redlockInit
    rw [buildServers_of_mem_false conns hf]
  · intro hnf
    constructor
    · rintro rfl
      rfl
    · intro hne
      unfold redlockInit
      rw [buildServers_of_not_mem_false conns hnf]
      dsimp only
      have hpos : 0 < conns.length := List.length_pos.mpr hne
      rw [if_neg (show ¬ conns.length < conns.length / 2 + 1 by omega)]
      exact ⟨_, rfl, rfl, rfl⟩

/-- Witness for the amended C6: one unconstructible peer raises `Warning`;
one constructible peer succeeds with quorum 1. -/
theorem C6_amended_witness :
    redlockInit [false] none none = Except.error InitError.warning ∧
    (∃ cfg, redlockInit [true] none none = Except.ok cfg ∧
      cfg.numServers = [true].length ∧ cfg.quorum = [true].length / 2 + 1) :=
  ⟨(C6_amended_init [false] none none).1 (by decide),
   ((C6_amended_init [true] none none).2 (by decide)).2 (by decide)⟩

/-- C7 counterexample: for `ttl = 150` the code computes
`drift = int(150 * 0.01) + 2 = 3` milliseconds, while the claimed formula
`ttl * 0.01 + 2` gives `3.5`: the code truncates `ttl * 0.01` before
adding the 2 ms, so the two differ whenever `ttl` is not a multiple
of 100. -/
theorem C7_counterexample : (drift 150 : ℚ) ≠ (150 : ℚ) * (1 / 100) + 2 := by
  norm_num [drift]

/-- C7 corrected: the clock-drift margin equals
`⌊ttl * 0.01⌋ + 2` milliseconds (integer truncation of `ttl * 0.01`),
and it is applied identically on every attempt of the same `lock` call:
the validity computed at any attempt `a` is
`ttl - elapsed(a) - drift(ttl)` with the one drift value computed before
the retry loop. -/
theorem C7_amended_drift (ttl : Nat) :
    drift ttl = Nat.floor ((ttl : ℚ) * (1 / 100)) + 2 ∧
    ∀ (env : LockEnv) (a : Nat),
      validityAt ttl env a = (ttl : Int) - (env.elapsed a : Int) - (drift ttl : Int) := by
  constructor
  · have h1 : (ttl : ℚ) * (1 / 100) = (ttl : ℚ) / ((100 : Nat) : ℚ) := by
      push_cast
      ring
    rw [drift, h1, Nat.floor_div_nat, Nat.floor_natCast]
  · intro env a
    rfl

end Redlock

namespace Redlock

/-! ### Release (C8) -/

theorem tryCatch_evalCheckDel (e : Bool) (val : Token) (st : PeerStore) :
    Except.tryCatch (evalCheckDel e val st) (fun _ => Except.ok st)
      = Except.ok (unlock_instance e val st) := by
  cases e <;> rfl

theorem unlock_instance_of_ne (e : Bool) (val : Token) (st : PeerStore)
    (h : st ≠ some val) : unlock_instance e val st = st := by
  cases e <;> simp [unlock_instance, evalCheckDel, h]

theorem unlock_instance_of_match (val : Token) :
    unlock_instance false val (some val) = none := by
  simp [unlock_instance, evalCheckDel]

theorem unlockRun_spec (err : Nat → Bool) (val : Token) :
    ∀ (s : List PeerStore) (i : Nat), ∃ (fin : List PeerStore) (tr : List Ev),
      unlockRun err val i s = Except.ok (fin, tr) ∧
      tr.length = s.length ∧
      (∀ j t, Ev.delCall 0 j t ∈ tr ↔ (i ≤ j ∧ j < i + s.length ∧ t = val)) ∧
      (∀ (j : Nat), fin[j]? = (s[j]?).map (fun st => unlock_instance (err (i + j)) val st)) := by
  intro s
  induction s with
  | nil =>
    intro i
    refine ⟨[], [], rfl, rfl, ?_, ?_⟩
    · intro j t
      simp only [List.not_mem_nil, false_iff, List.length_nil]
      omega
    · intro j
      simp
  | cons st rest ih =>
    intro i
    obtain ⟨fin, tr, heq, hlen, hmem, hget⟩ := ih (i + 1)
    refine ⟨unlock_instance (err i) val st :: fin, Ev.delCall 0 i val :: tr, ?_, ?_, ?_, ?_⟩
    · simp only [unlockRun]
      rw [tryCatch_evalCheckDel, heq]
      rfl
    · simp [hlen]
    · intro j t
      constructor
      · intro hmem2
        rcases List.mem_cons.mp hmem2 with he | hin
        · injection he with ha hb hc
          refine ⟨by omega, ?_, hc⟩
          simp only [List.length_cons]
          omega
        · obtain ⟨h1, h2, h3⟩ := (hmem j t).mp hin
          simp only [List.length_cons]
          exact ⟨by omega, by omega, h3⟩
      · rintro ⟨h1, h2, rfl⟩
        by_cases hji : j = i
        · subst hji
          exact List.mem_cons_self _ _
        · simp only [List.length_cons] at h2
          exact List.mem_cons_of_mem _ ((hmem j _).mpr ⟨by omega, by omega, rfl⟩)
    · intro j
      match j with
      | 0 => simp
      | j + 1 =>
        simp only [List.getElem?_cons_succ, hget j]
        rw [show i + 1 + j = i + (j + 1) by omega]

/-- C8: `Redlock.unlock(lock)` issues the atomic check-and-delete (delete
only if the stored value equals the handle's token) against every peer,
and never raises, whatever any peer returns or throws: for every pattern
of per-peer errors the run ends in `Except.ok`.  Peers whose stored value
differs from the token are left untouched; a peer holding the token whose
delete call does not error ends with the key removed. -/
theorem C8_unlock_release (err : Nat → Bool) (lk : Lock) (stores : List PeerStore) :
    ∃ (fin : List PeerStore) (tr : List Ev),
      unlock err lk stores = Except.ok (fin, tr) ∧
      tr.length = stores.length ∧
      (∀ j, j < stores.length → Ev.delCall 0 j lk.key ∈ tr) ∧
      (∀ (j : Nat), fin[j]? = (stores[j]?).map (fun st => unlock_instance (err j) lk.key st)) ∧
      (∀ (j : Nat) (st : PeerStore), stores[j]? = some st → st ≠ some lk.key →
        fin[j]? = some st) ∧
      (∀ (j : Nat), stores[j]? = some (some lk.key) → err j = false → fin[j]? = some none) := by
  obtain ⟨fin, tr, heq, hlen, hmem, hget⟩ := unlockRun_spec err lk.key stores 0
  have hget0 : ∀ (j : Nat), fin[j]?
      = (stores[j]?).map (fun st => unlock_instance (err j) lk.key st) := by
    intro j
    have h := hget j
    rwa [Nat.zero_add] at h
  refine ⟨fin, tr, heq, hlen, ?_, hget0, ?_, ?_⟩
  · intro j hj
    exact (hmem j lk.key).mpr ⟨Nat.zero_le j, by omega, rfl⟩
  · intro j st hst hne
    rw [hget0 j, hst]
    simp [unlock_instance_of_ne (err j) lk.key st hne]
  · intro j hst herr
    rw [hget0 j, hst]
    simp [herr, unlock_instance_of_match lk.key]

/-- Witness for C8: three peers — one erroring, one holding a different
token, one holding the handle's token — and `unlock` returns normally. -/
theorem C8_witness :
    ∃ (fin : List PeerStore) (tr : List Ev),
      unlock (fun j => j = 0) ⟨988, "r", 5⟩ [some 5, some 7, some 5] = Except.ok (fin, tr) ∧
      tr.length = ([some 5, some 7, some 5] : List PeerStore).length ∧
      (∀ j, j < ([some 5, some 7, some 5] : List PeerStore).length →
        Ev.delCall 0 j (Lock.key ⟨988, "r", 5⟩) ∈ tr) ∧
      (∀ (j : Nat), fin[j]? = (([some 5, some 7, some 5] : List PeerStore)[j]?).map
        (fun st => unlock_instance (j = 0 : Bool) (Lock.key ⟨988, "r", 5⟩) st)) ∧
      (∀ (j : Nat) (st : PeerStore), ([some 5, some 7, some 5] : List PeerStore)[j]? = some st →
        st ≠ some (Lock.key ⟨988, "r", 5⟩) → fin[j]? = some st) ∧
      (∀ (j : Nat), ([some 5, some 7, some 5] : List PeerStore)[j]?
          = some (some (Lock.key ⟨988, "r", 5⟩)) →
        (j = 0 : Bool) = false → fin[j]? = some none) :=
  C8_unlock_release (fun j => j = 0) ⟨988, "r", 5⟩ [some 5, some 7, some 5]

end Redlock

namespace Redlock

/-! ### Lease extender (C9, C10) -/

theorem extendExpiryLoop_event_set (ttl : Nat) (err : Nat → Bool) (store : Nat → PeerStore) :
    ∀ (fuel k : Nat), extendExpiryLoop ttl err store fuel k true = (true, []) := by
  intro fuel k
  cases fuel with
  | zero => rfl
  | succ fuel => simp [extendExpiryLoop]

theorem extendExpiryLoop_spec (ttl : Nat) (err : Nat → Bool) (store : Nat → PeerStore) :
    ∀ (fuel k : Nat), ∃ m ev,
      m ≤ fuel ∧
      extendExpiryLoop ttl err store fuel k false
        = (ev, canonTrace ((ttl : ℚ) / 1000 - 5) k m) ∧
      (∀ j, k ≤ j → j + 1 < k + m → renewOutcome (err j) (store j) = some true) ∧
      (m < fuel → 0 < m ∧ renewOutcome (err (k + m - 1)) (store (k + m - 1)) ≠ some true ∧
        ev = true) ∧
      (0 < fuel → 0 < m) := by
  intro fuel
  induction fuel with
  | zero =>
    intro k
    refine ⟨0, false, Nat.le_refl 0, rfl, ?_, ?_, ?_⟩
    · intro j h1 h2
      omega
    · intro h
      omega
    · intro h
      omega
  | succ fuel ih =>
    intro k
    by_cases hg : renewOutcome (err k) (store k) = some true
    · obtain ⟨m, ev, hm, heq, hgood, hstop, hpos⟩ := ih (k + 1)
      have hstep : extendStepEvent (renewOutcome (err k) (store k)) = false := by
        rw [hg]
        rfl
      refine ⟨m + 1, ev, by omega, ?_, ?_, ?_, ?_⟩
      · simp only [extendExpiryLoop, if_neg (by simp : ¬ (false : Bool) = true), hstep, heq]
        rfl
      · intro j h1 h2
        by_cases hjk : j = k
        · subst hjk
          exact hg
        · exact hgood j (by omega) (by omega)
      · intro hlt
        obtain ⟨hm0, hbad, hev⟩ := hstop (by omega)
        refine ⟨by omega, ?_, hev⟩
        rw [show k + (m + 1) - 1 = (k + 1) + m - 1 by omega]
        exact hbad
      · intro _
        omega
    · have hstep : extendStepEvent (renewOutcome (err k) (store k)) = true := by
        unfold extendStepEvent
        cases hr : renewOutcome (err k) (store k) with
        | none => rfl
        | some b =>
          cases b
          · rfl
          · exact absurd hr hg
      refine ⟨1, true, by omega, ?_, ?_, ?_, ?_⟩
      · simp only [extendExpiryLoop, if_neg (by simp : ¬ (false : Bool) = true), hstep,
          extendExpiryLoop_event_set]
        rfl
      · intro j h1 h2
        omega
      · intro _
        refine ⟨Nat.one_pos, ?_, rfl⟩
        rw [show k + 1 - 1 = k by omega]
        exact hg
      · intro _
        exact Nat.one_pos

/-- C9: each iteration of a renewal loop first waits `(ttl/1000) - 5`
time units and then issues the conditional renewal SET, whose success is
conditional on the key's existence ONLY (`renewOutcome false (some w) =
some true` for ANY stored value `w`, not just the holder's token); when an
iteration's SET reports failure or the peer errors, the loop sets the
shared stop event and exits: the trace is exactly `m` wait/renew pairs,
every iteration before the last succeeded, and if the loop ended before
exhausting its fuel then its last iteration failed, the event was left
set, and no further renewal call was issued. -/
theorem C9_extend_expiry_loop (ttl : Nat) (err : Nat → Bool) (store : Nat → PeerStore)
    (fuel : Nat) :
    (∃ m ev, m ≤ fuel ∧
      extendExpiryLoop ttl err store fuel 0 false
        = (ev, canonTrace ((ttl : ℚ) / 1000 - 5) 0 m) ∧
      (∀ j, j + 1 < m → renewOutcome (err j) (store j) = some true) ∧
      (m < fuel → 0 < m ∧ renewOutcome (err (m - 1)) (store (m - 1)) ≠ some true ∧
        ev = true) ∧
      (0 < fuel → 0 < m)) ∧
    (∀ w : Token, renewOutcome false (some w) = some true) ∧
    (∀ e : Bool, ∀ st : PeerStore, renewOutcome e st ≠ some true →
      extendStepEvent (renewOutcome e st) = true) := by
  refine ⟨?_, ?_, ?_⟩
  · obtain ⟨m, ev, hm, heq, hgood, hstop, hpos⟩ := extendExpiryLoop_spec ttl err store fuel 0
    refine ⟨m, ev, hm, heq, fun j hj => hgood j (Nat.zero_le j) (by omega), ?_, hpos⟩
    intro hlt
    have h := hstop hlt
    rwa [Nat.zero_add] at h
  · intro w
    rfl
  · intro e st h
    unfold extendStepEvent
    cases hr : renewOutcome e st with
    | none => rfl
    | some b =>
      cases b
      · rfl
      · exact absurd hr h

/-- C10 counterexample: two renewal threads are started (one per
successfully locked peer, each `start` overwriting the single
`self.expiry_extender` slot); both are alive when stop is called, yet the
stop operation joins only thread 2, never waiting for the still-running
thread 1 — it does not wait for every running renewal loop task. -/
theorem C10_counterexample :
    1 ∈ (start_expiry_extender 2 (start_expiry_extender 1 initExtMgr)).started ∧
    StopAct.joinThread 2 ∈
      (stop_expiry_extender (fun _ => true)
        (start_expiry_extender 2 (start_expiry_extender 1 initExtMgr))).2 ∧
    StopAct.joinThread 1 ∉
      (stop_expiry_extender (fun _ => true)
        (start_expiry_extender 2 (start_expiry_extender 1 initExtMgr))).2 := by
  decide

/-- C10 corrected: `stop_expiry_extender` marks the shared stop flag,
joins ONLY the most recently started renewal task (the single
`self.expiry_extender` slot) and only if it is alive — earlier-started
renewal loops are not awaited — then clears the flag for reuse; it never
raises (it is a total function), leaves the rest of the manager state
unchanged, and when no extender was ever started it joins nothing. -/
theorem C10_amended_stop (alive : Nat → Bool) (m : ExtMgr) :
    (stop_expiry_extender alive m).1.event = false ∧
    (stop_expiry_extender alive m).1.expiry_extender = m.expiry_extender ∧
    (stop_expiry_extender alive m).1.started = m.started ∧
    (∃ acts, (stop_expiry_extender alive m).2 = StopAct.setFlag :: (acts ++ [StopAct.clearFlag])) ∧
    (∀ t, StopAct.joinThread t ∈ (stop_expiry_extender alive m).2 ↔
      (m.expiry_extender = some t ∧ alive t = true)) ∧
    (m.expiry_extender = none →
      (stop_expiry_extender alive m).2 = [StopAct.setFlag, StopAct.clearFlag]) := by
  refine ⟨rfl, rfl, rfl, ?_, ?_, ?_⟩
  · cases hex : m.expiry_extender with
    | none => exact ⟨[], by simp [stop_expiry_extender, hex]⟩
    | some t =>
      by_cases ha : alive t
      · exact ⟨[StopAct.joinThread t], by simp [stop_expiry_extender, hex, ha]⟩
      · exact ⟨[], by simp [stop_expiry_extender, hex, ha]⟩
  · intro t
    cases hex : m.expiry_extender with
    | none =>
      simp [stop_expiry_extender, hex]
    | some t2 =>
      by_cases ha : alive t2
      · simp only [stop_expiry_extender, hex, if_pos ha]
        constructor
        · intro hmem
          simp only [List.mem_cons, List.mem_append, List.mem_singleton] at hmem
          rcases hmem with h | h | h
          · exact absurd h (by simp)
          · rcases h with h | h
            · injection h with ht
              subst ht
              exact ⟨rfl, ha⟩
            · simp at h
          · simp at h
        · rintro ⟨ht, _⟩
          injection ht with ht
          subst ht
          simp
      · simp only [stop_expiry_extender, hex, if_neg ha]
        constructor
        · intro hmem
          simp at hmem
        · rintro ⟨ht, hal⟩
          injection ht with ht
          subst ht
          exact absurd hal ha
  · intro hex
    simp [stop_expiry_extender, hex]

/-- Witness for the amended C10: after two starts with both threads
alive, stop joins exactly thread 2 and resets the flag. -/
theorem C10_amended_witness :
    (stop_expiry_extender (fun _ => true)
      (start_expiry_extender 2 (start_expiry_extender 1 initExtMgr))).1.event = false ∧
    StopAct.joinThread 2 ∈
      (stop_expiry_extender (fun _ => true)
        (start_expiry_extender 2 (start_expiry_extender 1 initExtMgr))).2 := by
  have h := C10_amended_stop (fun _ => true)
    (start_expiry_extender 2 (start_expiry_extender 1 initExtMgr))
  exact ⟨h.1, (h.2.2.2.2.1 2).mpr (by decide)⟩

end Redlock
